import Mathlib

/-!
Verification development for the Python3-Editor application (src/editor.py).

The file shallowly embeds the parts of the program the specification talks
about: the per-line syntax highlighter (`PythonSyntaxHighlighter.highlightBlock`
with its single-line regular-expression rules and the multi-line triple-quote
state machine), the line-number gutter width computation
(`CodeEditor.lineNumberAreaWidth`), file saving and opening
(`_write_to_file` / `open_file`, both UTF-8), the run / process-finished
orchestration (`run_code` / `process_finished` / `maybe_save`), and the
font-size stepping (`increase_font_size` / `decrease_font_size`).

A line of text is a `List Char` (Python `str` is a sequence of Unicode code
points, which coincides with Lean `Char` for scalar values).  Loops that walk
a scan position forward are written with an explicit fuel argument so that
every definition is executable by kernel reduction; top-level wrappers pass
fuel that is proved (and in one claim stated) to be sufficient because the
scan position strictly advances on every iteration.
-/

namespace Editor

/-! ### Text primitives

`findFrom sub text i` models Python `text.find(sub, i)`: the least index
`j ≥ i` at which `sub` occurs in `text`, or `none` (Python `-1`). -/

def findFromF : Nat → List Char → List Char → Nat → Option Nat
  | 0, _, _, _ => none
  | fuel+1, sub, text, i =>
    if i + sub.length ≤ text.length then
      if (text.drop i).take sub.length = sub then some i
      else findFromF fuel sub text (i+1)
    else none

def findFrom (sub text : List Char) (i : Nat) : Option Nat :=
  findFromF (text.length + 1) sub text i

/-- The `'''` delimiter of the highlighter. -/
def tq : List Char := ['\'', '\'', '\'']

/-- The `"""` delimiter of the highlighter. -/
def dq : List Char := ['"', '"', '"']

/-! ### The multi-line string scanner of `highlightBlock`

`scanFromF` is the `while start_index < len(text)` loop of
`highlightBlock` (the part below "Look for new multiline strings in the rest
of the block"): it returns the list of `setFormat` spans `(start, length)`
emitted by the loop together with the block state the loop leaves behind
(`setCurrentBlockState(0)` was executed before the loop, so the state is `0`
unless the loop hits an unclosed opener). -/

/-- `if start_d == -1 or (start_s != -1 and start_s < start_d)` — which
delimiter occurrence the loop takes, with its state tag (1 = `'''`,
2 = `"""`). -/
def pickOpener : Option Nat → Option Nat → Option (Nat × Int)
  | none, none => none
  | some s, none => some (s, 1)
  | none, some d => some (d, 2)
  | some s, some d => if s < d then some (s, 1) else some (d, 2)

def scanFromF : Nat → List Char → Nat → List (Nat × Nat) × Int
  | 0, _, _ => ([], 0)
  | fuel+1, text, i =>
    if i < text.length then
      match pickOpener (findFrom tq text i) (findFrom dq text i) with
      | none => ([], 0)
      | some (nsi, state) =>
        let delim := if state = 1 then tq else dq
        match findFrom delim text (nsi + delim.length) with
        | none => ([(nsi, text.length - nsi)], state)
        | some e =>
          let len := e - nsi + delim.length
          let rest := scanFromF fuel text (nsi + len)
          ((nsi, len) :: rest.1, rest.2)
    else ([], 0)

def scanFrom (text : List Char) (i : Nat) : List (Nat × Nat) × Int :=
  scanFromF (text.length + 1) text i

/-- The whole "Handle multiline strings" part of `highlightBlock`: incoming
state `prev` is `previousBlockState()` (`-1` or `0` = clean, `1` = inside
`'''`, `2` = inside `"""`); the result is the list of string-format spans and
the outgoing `currentBlockState`. -/
def multilineScan (prev : Int) (text : List Char) : List (Nat × Nat) × Int :=
  let delimiter : List Char := if prev = 1 then tq else if prev = 2 then dq else []
  if prev > 0 then
    match findFrom delimiter text 0 with
    | none => ([(0, text.length)], prev)
    | some e =>
      let length := e + delimiter.length
      let rest := scanFrom text length
      ((0, length) :: rest.1, rest.2)
  else
    scanFrom text 0

/-! ### The single-line rules of `PythonSyntaxHighlighter.__init__`

The character formats created in the constructor.  The three
function / class-name rules all reuse the one `function_format` object, so a
single constructor stands for it. -/

inductive Fmt where
  | keywordFmt
  | builtinFmt
  | selfFmt
  | stringFmt
  | commentFmt
  | numberFmt
  | functionFmt
deriving DecidableEq, Repr

/-- `\w` of the patterns, i.e. `[A-Za-z0-9_]` (`QRegularExpression` default
ASCII semantics). -/
def isWordChar (c : Char) : Bool :=
  (65 ≤ c.toNat && c.toNat ≤ 90) || (97 ≤ c.toNat && c.toNat ≤ 122) ||
  (48 ≤ c.toNat && c.toNat ≤ 57) || c = '_'

def isDigitChar (c : Char) : Bool :=
  48 ≤ c.toNat && c.toNat ≤ 57

/-- `\s`: ASCII whitespace `[ \t\n\v\f\r]`. -/
def isSpaceChar (c : Char) : Bool :=
  c = ' ' || c.toNat = 9 || c.toNat = 10 || c.toNat = 11 || c.toNat = 12 || c.toNat = 13

/-- Whether offset `i` holds a word character (out-of-range offsets do not). -/
def isWordAt (text : List Char) (i : Nat) : Bool :=
  match text.get? i with
  | some c => isWordChar c
  | none => false

/-- Whether offset `i` holds a whitespace character. -/
def isSpaceAt (text : List Char) (i : Nat) : Bool :=
  match text.get? i with
  | some c => isSpaceChar c
  | none => false

/-- A `\b` word boundary at offset `i` of the line. -/
def boundaryAt (text : List Char) : Nat → Bool
  | 0 => isWordAt text 0
  | i+1 => isWordAt text i != isWordAt text (i+1)

/-- First offset `≥ i` that does not hold a word character. -/
def wordRunEndF : Nat → List Char → Nat → Nat
  | 0, _, i => i
  | fuel+1, text, i =>
    match text.get? i with
    | some c => if isWordChar c then wordRunEndF fuel text (i+1) else i
    | none => i

def wordRunEnd (text : List Char) (i : Nat) : Nat :=
  wordRunEndF (text.length + 1) text i

/-- First offset `≥ i` that does not hold a digit. -/
def digitRunEndF : Nat → List Char → Nat → Nat
  | 0, _, i => i
  | fuel+1, text, i =>
    match text.get? i with
    | some c => if isDigitChar c then digitRunEndF fuel text (i+1) else i
    | none => i

def digitRunEnd (text : List Char) (i : Nat) : Nat :=
  digitRunEndF (text.length + 1) text i

/-- `globalMatch` of a word-boundary-anchored literal pattern `\bword\b`
(the keyword, builtin and `self` rules): leftmost non-overlapping matches. -/
def wordMatchF : Nat → List Char → List Char → Nat → List (Nat × Nat)
  | 0, _, _, _ => []
  | fuel+1, w, text, i =>
    if i + w.length ≤ text.length then
      if (text.drop i).take w.length = w ∧ boundaryAt text i ∧ boundaryAt text (i + w.length) then
        (i, w.length) :: wordMatchF fuel w text (i + w.length)
      else wordMatchF fuel w text (i + 1)
    else []

def wordMatch (w : List Char) (text : List Char) : List (Nat × Nat) :=
  wordMatchF (text.length + 1) w text 0

/-- `globalMatch` of the non-greedy quoted-string pattern `".*?"` (resp.
`'.*?'`): consecutive quotes pair up left to right.  (`highlightBlock`
receives one Qt text block at a time, which never contains a newline, so the
newline exclusion of `.` and `[^\n]` never cuts a line short.) -/
def quoteMatchF : Nat → Char → List Char → Nat → List (Nat × Nat)
  | 0, _, _, _ => []
  | fuel+1, q, text, i =>
    match findFrom [q] text i with
    | none => []
    | some a =>
      match findFrom [q] text (a + 1) with
      | none => []
      | some b => (a, b - a + 1) :: quoteMatchF fuel q text (b + 1)

def quoteMatch (q : Char) (text : List Char) : List (Nat × Nat) :=
  quoteMatchF (text.length + 1) q text 0

/-- `globalMatch` of the comment pattern: the first `#` and everything after
it on the line. -/
def commentMatch (text : List Char) : List (Nat × Nat) :=
  match findFrom ['#'] text 0 with
  | none => []
  | some h => [(h, text.length - h)]

/-- `globalMatch` of the numeric-literal pattern `\b[0-9]+\.?[0-9]*\b`,
including backtracking over the optional dot and the trailing digit run. -/
def numberMatchF : Nat → List Char → Nat → List (Nat × Nat)
  | 0, _, _ => []
  | fuel+1, text, i =>
    match text.get? i with
    | none => []
    | some c =>
      if isDigitChar c ∧ boundaryAt text i then
        let j := digitRunEnd text i
        let mlen : Option Nat :=
          if text.get? j = some '.' then
            let k := digitRunEnd text (j + 1)
            if boundaryAt text k then some (k - i)
            else if boundaryAt text (j + 1) then some (j + 1 - i)
            else some (j - i)
          else
            if boundaryAt text j then some (j - i) else none
        match mlen with
        | some len => (i, len) :: numberMatchF fuel text (i + len)
        | none => numberMatchF fuel text (i + 1)
      else numberMatchF fuel text (i + 1)

def numberMatch (text : List Char) : List (Nat × Nat) :=
  numberMatchF (text.length + 1) text 0

/-- `globalMatch` of `\b[A-Za-z0-9_]+(?=\()`: a maximal identifier run
immediately followed by an opening parenthesis. -/
def identBeforeParenF : Nat → List Char → Nat → List (Nat × Nat)
  | 0, _, _ => []
  | fuel+1, text, i =>
    match text.get? i with
    | none => []
    | some c =>
      if isWordChar c ∧ boundaryAt text i then
        let j := wordRunEnd text i
        if text.get? j = some '(' then (i, j - i) :: identBeforeParenF fuel text j
        else identBeforeParenF fuel text (i + 1)
      else identBeforeParenF fuel text (i + 1)

def identBeforeParenMatch (text : List Char) : List (Nat × Nat) :=
  identBeforeParenF (text.length + 1) text 0

/-- `globalMatch` of `(?<=kw\s)[A-Za-z0-9_]+`: an identifier run whose
`kw.length + 1` preceding characters are `kw` followed by one whitespace
character (the `class` / `def` look-behind rules). -/
def lookbehindF (kw : List Char) : Nat → List Char → Nat → List (Nat × Nat)
  | 0, _, _ => []
  | fuel+1, text, i =>
    match text.get? i with
    | none => []
    | some c =>
      if isWordChar c ∧ kw.length + 1 ≤ i ∧
          (text.drop (i - (kw.length + 1))).take kw.length = kw ∧
          isSpaceAt text (i - 1) then
        let j := wordRunEnd text i
        (i, j - i) :: lookbehindF kw fuel text j
      else lookbehindF kw fuel text (i + 1)

def lookbehindMatch (kw : List Char) (text : List Char) : List (Nat × Nat) :=
  lookbehindF kw (text.length + 1) text 0

def classNameMatch (text : List Char) : List (Nat × Nat) :=
  lookbehindMatch "class".data text

def defNameMatch (text : List Char) : List (Nat × Nat) :=
  lookbehindMatch "def".data text

/-- The keyword list of the constructor, in source order. -/
def pythonKeywords : List String :=
  ["and", "as", "assert", "break", "class", "continue", "def",
   "del", "elif", "else", "except", "False", "finally", "for",
   "from", "global", "if", "import", "in", "is", "lambda",
   "None", "nonlocal", "not", "or", "pass", "raise", "return",
   "True", "try", "while", "with", "yield"]

/-- The builtin list of the constructor, in source order. -/
def pythonBuiltins : List String :=
  ["abs", "all", "any", "ascii", "bin", "bool", "bytearray",
   "bytes", "callable", "chr", "classmethod", "compile", "complex",
   "delattr", "dict", "dir", "divmod", "enumerate", "eval", "exec",
   "filter", "float", "format", "frozenset", "getattr", "globals",
   "hasattr", "hash", "help", "hex", "id", "input", "int", "isinstance",
   "issubclass", "iter", "len", "list", "locals", "map", "max",
   "memoryview", "min", "next", "object", "oct", "open", "ord", "pow",
   "print", "property", "range", "repr", "reversed", "round", "set",
   "setattr", "slice", "sorted", "staticmethod", "str", "sum", "super",
   "tuple", "type", "vars", "zip"]

/-- `self.highlighting_rules`, in the exact registration order of the
constructor: keywords, builtins, `self`, double-quoted strings,
single-quoted strings, comments, numbers, identifier-before-paren,
class-name look-behind, def-name look-behind. -/
def highlighting_rules : List ((List Char → List (Nat × Nat)) × Fmt) :=
  (pythonKeywords.map fun w => (wordMatch w.data, Fmt.keywordFmt))
  ++ (pythonBuiltins.map fun w => (wordMatch w.data, Fmt.builtinFmt))
  ++ [(wordMatch "self".data, Fmt.selfFmt)]
  ++ [(quoteMatch '"', Fmt.stringFmt), (quoteMatch '\'', Fmt.stringFmt)]
  ++ [(commentMatch, Fmt.commentFmt)]
  ++ [(numberMatch, Fmt.numberFmt)]
  ++ [(identBeforeParenMatch, Fmt.functionFmt),
      (classNameMatch, Fmt.functionFmt),
      (defNameMatch, Fmt.functionFmt)]

/-! ### The per-character format buffer and `highlightBlock`

`setFormat(start, count, fmt)` of `QSyntaxHighlighter` assigns the format to
every character offset in `[start, start + count)`, overwriting whatever an
earlier call wrote there.  The block's formats start out empty on every
(re)highlight pass. -/

def Buf : Type := Nat → Option Fmt

def emptyBuf : Buf := fun _ => none

def setFmt (b : Buf) (s len : Nat) (f : Fmt) : Buf :=
  fun i => if s ≤ i ∧ i < s + len then some f else b i

/-- Sequential application of a list of `setFormat` writes. -/
def applyWrites (b : Buf) (ws : List (Nat × Nat × Fmt)) : Buf :=
  ws.foldl (fun b w => setFmt b w.1 w.2.1 w.2.2) b

/-- The `setFormat` calls of the single-line rule loop of `highlightBlock`,
in execution order: rules in registration order, matches of one rule in
`globalMatch` order. -/
def ruleWrites (text : List Char) : List (Nat × Nat × Fmt) :=
  highlighting_rules.flatMap fun r => (r.1 text).map fun sp => (sp.1, sp.2, r.2)

/-- `highlightBlock`: all single-line rules are applied first, then the
multi-line string spans are written (with the string format) on top, and the
outgoing block state is the one computed by the multi-line scan. -/
def highlightBlock (prev : Int) (text : List Char) : Buf × Int :=
  let b1 := applyWrites emptyBuf (ruleWrites text)
  let ml := multilineScan prev text
  (applyWrites b1 (ml.1.map fun sp => (sp.1, sp.2, Fmt.stringFmt)), ml.2)

/-! ### `CodeEditor.lineNumberAreaWidth`

`digits = 1; count = max(1, blockCount); while count >= 10: count //= 10;
digits += 1; return 10 + horizontalAdvance('9') * digits`.  The digit glyph
width is a font-metrics runtime value and is a parameter here. -/

def gutterLoopF : Nat → Nat → Nat → Nat
  | 0, _, digits => digits
  | fuel+1, count, digits =>
    if 10 ≤ count then gutterLoopF fuel (count / 10) (digits + 1) else digits

def lineNumberAreaWidth (blockCount digitWidth : Nat) : Nat :=
  let count := max 1 blockCount
  10 + digitWidth * gutterLoopF count count 1

/-! ### `PythonCodeEditor` file and run orchestration

The editor state carries exactly what the claims about `run_code`,
`maybe_save`, `save_file` / `save_file_as` / `_write_to_file` and
`process_finished` depend on: the current file path, the buffer text, the
document-modified flag, the files on disk, and the enabled flag of the run
action together with whether the external process is active. -/

structure EdState where
  path : Option String
  text : List Char
  modified : Bool
  fs : List (String × List Char)
  runEnabled : Bool
  processActive : Bool
deriving DecidableEq, Repr

/-- The dialogs the file/run paths can pop up. -/
inductive Prompt where
  /-- the `QMessageBox.warning` of `maybe_save` with Save / Discard / Cancel -/
  | threeWaySave
  /-- the `QFileDialog.getSaveFileName` dialog of `save_file_as` -/
  | saveFileDialog
  /-- the `QMessageBox.warning` "Please save the file before running." -/
  | cannotRunWarning
deriving DecidableEq, Repr

/-- The user's pick in the three-way `maybe_save` message box. -/
inductive SaveChoice where
  | save
  | discard
  | cancel
deriving DecidableEq, Repr

/-- `_write_to_file(file_path)` on the success path: write the buffer text to
disk and call `set_current_file` (which clears the modified flag). -/
def writeFileEd (st : EdState) (p : String) : EdState :=
  { st with fs := (p, st.text) :: st.fs, path := some p, modified := false }

/-- `save_file_as()`: pops the save-file dialog; `resp = some p` is the user
choosing path `p`, `none` is cancelling the dialog.  Returns whether the save
happened, the new state, and the prompts shown. -/
def saveFileAs (st : EdState) (resp : Option String) : Bool × EdState × List Prompt :=
  match resp with
  | some p => (true, writeFileEd st p, [Prompt.saveFileDialog])
  | none => (false, st, [Prompt.saveFileDialog])

/-- `save_file()`: save-as when the document has no path yet, else write to
the current path. -/
def saveFileEd (st : EdState) (resp : Option String) : Bool × EdState × List Prompt :=
  match st.path with
  | none => saveFileAs st resp
  | some p => (true, writeFileEd st p, [])

/-- `maybe_save()` (used by `new_file`, `open_file` and `closeEvent`): an
unmodified document passes straight through; otherwise the three-way
Save / Discard / Cancel decision is prompted. -/
def maybeSave (st : EdState) (choice : SaveChoice) (resp : Option String) :
    Bool × EdState × List Prompt :=
  if st.modified = false then (true, st, [])
  else
    match choice with
    | SaveChoice.save =>
      let r := saveFileEd st resp
      (r.1, r.2.1, Prompt.threeWaySave :: r.2.2)
    | SaveChoice.discard => (true, st, [Prompt.threeWaySave])
    | SaveChoice.cancel => (false, st, [Prompt.threeWaySave])

/-- `run_code()`: always calls `save_file()` first; an unsuccessful save
aborts the run (status-bar message only).  On success with a file path the
run action is disabled and the external process is started; without a path a
warning is shown.  The final `Bool` is whether `process.start` was called. -/
def runCode (st : EdState) (resp : Option String) : EdState × List Prompt × Bool :=
  let r := saveFileEd st resp
  if r.1 = false then (r.2.1, r.2.2, false)
  else
    match r.2.1.path with
    | some _ =>
      ({ r.2.1 with runEnabled := false, processActive := true }, r.2.2, true)
    | none => (r.2.1, r.2.2 ++ [Prompt.cannotRunWarning], false)

/-- `process_finished()`: the external process ended; the run action is
re-enabled. -/
def processFinished (st : EdState) : EdState :=
  { st with processActive := false, runEnabled := true }

/-- The state after `init_ui` + the initial `new_file()`: no path, empty
unmodified buffer, run action enabled, no process running. -/
def initEd : EdState :=
  { path := none, text := [], modified := false, fs := [],
    runEnabled := true, processActive := false }

/-- The run / process-finished step relation.  A `QAction` only fires while
it is enabled, so triggering the run requires `runEnabled`; the
`finished` signal of `QProcess` fires when the active process ends. -/
inductive EdStep : EdState → EdState → Prop where
  | runTrigger (st : EdState) (resp : Option String) :
      st.runEnabled = true → EdStep st (runCode st resp).1
  | procFinished (st : EdState) :
      st.processActive = true → EdStep st (processFinished st)

/-- States reachable from the initial editor state by run / finish steps. -/
inductive EdReachable : EdState → Prop where
  | init : EdReachable initEd
  | step {s t : EdState} : EdReachable s → EdStep s t → EdReachable t

/-! ### Font-size stepping -/

/-- Editor and output-view point sizes.  `QFont("Courier", 11)` for the
editor, `QFont("Courier", 10)` for the output view. -/
structure FontState where
  editorSize : Int
  outputSize : Int
deriving DecidableEq, Repr

/-- `increase_font_size`: guarded only by the editor's current size. -/
def increaseFontSize (st : FontState) : FontState :=
  if st.editorSize < 72 then
    { editorSize := st.editorSize + 2, outputSize := st.outputSize + 2 }
  else st

/-- `decrease_font_size`: guarded only by the editor's current size. -/
def decreaseFontSize (st : FontState) : FontState :=
  if st.editorSize > 6 then
    { editorSize := st.editorSize - 2, outputSize := st.outputSize - 2 }
  else st

def initFonts : FontState := { editorSize := 11, outputSize := 10 }

/-- Run a sequence of font actions (`true` = increase, `false` = decrease). -/
def applyFontSteps (steps : List Bool) (st : FontState) : FontState :=
  steps.foldl (fun s b => if b then increaseFontSize s else decreaseFontSize s) st

/-! ### UTF-8 file content

`_write_to_file` opens the file with `encoding='utf-8'` and writes
`editor.toPlainText()`; `open_file` opens with `encoding='utf-8'` and reads.
File content is a byte list; the codec is UTF-8 over the text's Unicode
scalar values. -/

/-- UTF-8 encoding of one Unicode scalar value. -/
def utf8EncodeCP (n : Nat) : List Nat :=
  if n < 0x80 then [n]
  else if n < 0x800 then [0xC0 + n / 0x40, 0x80 + n % 0x40]
  else if n < 0x10000 then
    [0xE0 + n / 0x1000, 0x80 + (n / 0x40) % 0x40, 0x80 + n % 0x40]
  else
    [0xF0 + n / 0x40000, 0x80 + (n / 0x1000) % 0x40, 0x80 + (n / 0x40) % 0x40,
     0x80 + n % 0x40]

/-- The bytes `f.write(text)` produces under `encoding='utf-8'`. -/
def utf8Encode (text : List Char) : List Nat :=
  text.flatMap fun c => utf8EncodeCP c.toNat

/-- One continuation byte of a 2-byte sequence with lead byte `b0`;
`dec` decodes the remaining input. -/
def utf8Cont1 (dec : List Nat → Option (List Char)) (b0 : Nat) :
    List Nat → Option (List Char)
  | b1 :: rest1 =>
    if 0x80 ≤ b1 ∧ b1 < 0xC0 then
      let n := (b0 - 0xC0) * 0x40 + (b1 - 0x80)
      if 0x80 ≤ n then (dec rest1).map (fun cs => Char.ofNat n :: cs)
      else none
    else none
  | [] => none

/-- Two continuation bytes of a 3-byte sequence with lead byte `b0`. -/
def utf8Cont2 (dec : List Nat → Option (List Char)) (b0 : Nat) :
    List Nat → Option (List Char)
  | b1 :: b2 :: rest1 =>
    if (0x80 ≤ b1 ∧ b1 < 0xC0) ∧ (0x80 ≤ b2 ∧ b2 < 0xC0) then
      let n := (b0 - 0xE0) * 0x1000 + (b1 - 0x80) * 0x40 + (b2 - 0x80)
      if 0x800 ≤ n ∧ (n < 0xD800 ∨ 0xDFFF < n) then
        (dec rest1).map (fun cs => Char.ofNat n :: cs)
      else none
    else none
  | _ => none

/-- Three continuation bytes of a 4-byte sequence with lead byte `b0`. -/
def utf8Cont3 (dec : List Nat → Option (List Char)) (b0 : Nat) :
    List Nat → Option (List Char)
  | b1 :: b2 :: b3 :: rest1 =>
    if (0x80 ≤ b1 ∧ b1 < 0xC0) ∧ (0x80 ≤ b2 ∧ b2 < 0xC0) ∧ (0x80 ≤ b3 ∧ b3 < 0xC0) then
      let n := (b0 - 0xF0) * 0x40000 + (b1 - 0x80) * 0x1000 +
               (b2 - 0x80) * 0x40 + (b3 - 0x80)
      if 0x10000 ≤ n ∧ n < 0x110000 then
        (dec rest1).map (fun cs => Char.ofNat n :: cs)
      else none
    else none
  | _ => none

/-- Strict UTF-8 decoding, as Python's `utf-8` codec on `f.read()`: rejects
truncated sequences, stray continuation bytes, overlong forms, surrogates and
out-of-range values.  Every Unicode scalar consumes at least one byte, so
fuel equal to the byte count is always enough. -/
def utf8DecodeF : Nat → List Nat → Option (List Char)
  | _, [] => some []
  | 0, _ :: _ => none
  | fuel+1, b0 :: rest =>
    if b0 < 0x80 then (utf8DecodeF fuel rest).map (fun cs => Char.ofNat b0 :: cs)
    else if b0 < 0xC0 then none
    else if b0 < 0xE0 then utf8Cont1 (utf8DecodeF fuel) b0 rest
    else if b0 < 0xF0 then utf8Cont2 (utf8DecodeF fuel) b0 rest
    else if b0 < 0xF5 then utf8Cont3 (utf8DecodeF fuel) b0 rest
    else none

def utf8Decode (bytes : List Nat) : Option (List Char) :=
  utf8DecodeF bytes.length bytes

/-- `_write_to_file`'s effect on the disk: the UTF-8 bytes of the buffer text
land at the chosen path. -/
def saveToDisk (fs : String → Option (List Nat)) (path : String) (text : List Char) :
    String → Option (List Nat) :=
  fun p => if p = path then some (utf8Encode text) else fs p

/-- `open_file`'s read of a path: the file's bytes decoded as UTF-8. -/
def openFromDisk (fs : String → Option (List Nat)) (path : String) : Option (List Char) :=
  match fs path with
  | some bytes => utf8Decode bytes
  | none => none

/-- A modified never-saved document (Scenario E's "unsaved new document"
after typing): no file path, nonempty buffer, modified flag set. -/
def unsavedDoc : EdState :=
  { path := none, text := "x".data, modified := true, fs := [],
    runEnabled := true, processActive := false }

/-! ## Helper lemmas

### Bounds for `findFrom` and fuel sufficiency of the scan loop -/

theorem findFromF_bounds {fuel : Nat} {sub text : List Char} {i j : Nat}
    (h : findFromF fuel sub text i = some j) :
    i ≤ j ∧ j + sub.length ≤ text.length := by
  induction fuel generalizing i with
  | zero => simp [findFromF] at h
  | succ fuel ih =>
    unfold findFromF at h
    by_cases hb : i + sub.length ≤ text.length
    · rw [if_pos hb] at h
      by_cases hp : (text.drop i).take sub.length = sub
      · rw [if_pos hp] at h
        cases h
        exact ⟨Nat.le_refl _, hb⟩
      · rw [if_neg hp] at h
        have := ih h
        exact ⟨Nat.le_trans (Nat.le_succ _) this.1, this.2⟩
    · rw [if_neg hb] at h
      cases h

theorem findFrom_bounds {sub text : List Char} {i j : Nat}
    (h : findFrom sub text i = some j) :
    i ≤ j ∧ j + sub.length ≤ text.length :=
  findFromF_bounds h

/-- If the scan loop takes an opener, that opener lies at or after the scan
position and three characters of it fit in the line. -/
theorem pickOpener_bounds {text : List Char} {i nsi : Nat} {st : Int}
    (h : pickOpener (findFrom tq text i) (findFrom dq text i) = some (nsi, st)) :
    i ≤ nsi ∧ nsi + 3 ≤ text.length ∧ (st = 1 ∨ st = 2) := by
  cases hs : findFrom tq text i with
  | none =>
    cases hd : findFrom dq text i with
    | none => rw [hs, hd] at h; simp [pickOpener] at h
    | some d =>
      rw [hs, hd] at h
      simp only [pickOpener, Option.some.injEq, Prod.mk.injEq] at h
      obtain ⟨rfl, rfl⟩ := h
      have := findFrom_bounds hd
      exact ⟨this.1, this.2, Or.inr rfl⟩
  | some s =>
    cases hd : findFrom dq text i with
    | none =>
      rw [hs, hd] at h
      simp only [pickOpener, Option.some.injEq, Prod.mk.injEq] at h
      obtain ⟨rfl, rfl⟩ := h
      have := findFrom_bounds hs
      exact ⟨this.1, this.2, Or.inl rfl⟩
    | some d =>
      rw [hs, hd] at h
      simp only [pickOpener] at h
      by_cases hlt : s < d
      · rw [if_pos hlt] at h
        simp only [Option.some.injEq, Prod.mk.injEq] at h
        obtain ⟨rfl, rfl⟩ := h
        have := findFrom_bounds hs
        exact ⟨this.1, this.2, Or.inl rfl⟩
      · rw [if_neg hlt] at h
        simp only [Option.some.injEq, Prod.mk.injEq] at h
        obtain ⟨rfl, rfl⟩ := h
        have := findFrom_bounds hd
        exact ⟨this.1, this.2, Or.inr rfl⟩

/-- Fuel-indifference of the scan loop: any two fuel values that cover the
remaining length of the line compute the same spans and state.  This is the
formal content of "the forward scan always advances": the loop reaches its
exit within `text.length + 1 - i` iterations. -/
theorem scanFromF_congr (text : List Char) :
    ∀ f g i, text.length + 1 ≤ f + i → text.length + 1 ≤ g + i →
      scanFromF f text i = scanFromF g text i := by
  intro f
  induction f with
  | zero =>
    intro g i hf hg
    have hlen : text.length < i := by omega
    have h0 : scanFromF 0 text i = ([], 0) := rfl
    rw [h0]
    cases g with
    | zero => rfl
    | succ g' =>
      unfold scanFromF
      rw [if_neg (by omega)]
  | succ f' ih =>
    intro g i hf hg
    by_cases hi : i < text.length
    · cases g with
      | zero => omega
      | succ g' =>
        unfold scanFromF
        rw [if_pos hi, if_pos hi]
        cases hpick : pickOpener (findFrom tq text i) (findFrom dq text i) with
        | none => rfl
        | some p =>
          obtain ⟨nsi, st⟩ := p
          have hb := pickOpener_bounds hpick
          simp only
          have hdl : (if st = 1 then tq else dq).length = 3 := by
            rcases hb.2.2 with h1 | h2
            · simp [h1, tq]
            · by_cases hst : st = 1 <;> simp [hst, tq, dq]
          cases hend : findFrom (if st = 1 then tq else dq) text (nsi + (if st = 1 then tq else dq).length) with
          | none => rfl
          | some e =>
            have he := findFrom_bounds hend
            rw [hdl] at he
            have hrec : scanFromF f' text (nsi + (e - nsi + (if st = 1 then tq else dq).length)) =
                scanFromF g' text (nsi + (e - nsi + (if st = 1 then tq else dq).length)) := by
              apply ih
              · rw [hdl]; omega
              · rw [hdl]; omega
            dsimp only
            rw [hrec]
    · cases g with
      | zero =>
        unfold scanFromF
        rw [if_neg hi]
      | succ g' =>
        unfold scanFromF
        rw [if_neg hi, if_neg hi]

/-- With no `'''` and no `"""` at or after the scan position, the loop stops
with no spans and leaves the block state at `0`. -/
theorem scanFrom_nodelim {text : List Char} {i : Nat}
    (h1 : findFrom tq text i = none) (h2 : findFrom dq text i = none) :
    scanFrom text i = ([], 0) := by
  by_cases hi : i < text.length
  · unfold scanFrom scanFromF
    rw [if_pos hi, h1, h2]
    rfl
  · unfold scanFrom scanFromF
    rw [if_neg hi]

/-- One iteration of the scan loop, given the opener it picks: either the
closer is missing (style to end of line, record the opener's state, stop) or
the closed span is emitted and the loop continues right after the closer. -/
theorem scanFrom_step {text : List Char} {i nsi : Nat} {st : Int}
    (hpick : pickOpener (findFrom tq text i) (findFrom dq text i) = some (nsi, st)) :
    scanFrom text i =
      match findFrom (if st = 1 then tq else dq) text (nsi + 3) with
      | none => ([(nsi, text.length - nsi)], st)
      | some e =>
        ((nsi, e - nsi + 3) :: (scanFrom text (e + 3)).1, (scanFrom text (e + 3)).2) := by
  have hb := pickOpener_bounds hpick
  have hi : i < text.length := by omega
  have hdl : (if st = 1 then tq else dq).length = 3 := by
    rcases hb.2.2 with h | h
    · rw [h]; rfl
    · rw [h]; rfl
  show scanFromF (text.length + 1) text i = _
  unfold scanFromF
  rw [if_pos hi, hpick]
  dsimp only
  rw [hdl]
  cases hend : findFrom (if st = 1 then tq else dq) text (nsi + 3) with
  | none => rfl
  | some e =>
    have he := findFrom_bounds hend
    rw [hdl] at he
    dsimp only
    have harg : nsi + (e - nsi + 3) = e + 3 := by omega
    rw [harg]
    rw [scanFromF_congr text text.length (text.length + 1) (e + 3) (by omega) (by omega)]
    rfl

/-- The loop picks the `'''` occurrence when `"""` is absent or later. -/
theorem pickOpener_left {ss sd : Option Nat} {s : Nat}
    (h : ss = some s) (hd : sd = none ∨ ∃ d, sd = some d ∧ s < d) :
    pickOpener ss sd = some (s, 1) := by
  subst h
  rcases hd with rfl | ⟨d, rfl, hlt⟩
  · rfl
  · simp [pickOpener, if_pos hlt]

/-- The loop picks the `"""` occurrence when `'''` is absent or later. -/
theorem pickOpener_right {ss sd : Option Nat} {d : Nat}
    (h : sd = some d) (hs : ss = none ∨ ∃ s, ss = some s ∧ d < s) :
    pickOpener ss sd = some (d, 2) := by
  subst h
  rcases hs with rfl | ⟨s, rfl, hlt⟩
  · rfl
  · simp [pickOpener, if_neg (by omega : ¬s < d)]

/-! ### Format-buffer lemmas -/

theorem applyWrites_append (b : Buf) (ws1 ws2 : List (Nat × Nat × Fmt)) :
    applyWrites b (ws1 ++ ws2) = applyWrites (applyWrites b ws1) ws2 :=
  List.foldl_append _ _ _ _

/-- Writes that do not cover an offset leave it untouched. -/
theorem applyWrites_nocover {i : Nat} :
    ∀ (ws : List (Nat × Nat × Fmt)) (b : Buf),
      (∀ w ∈ ws, ¬(w.1 ≤ i ∧ i < w.1 + w.2.1)) → applyWrites b ws i = b i := by
  intro ws
  induction ws with
  | nil => intro b _; rfl
  | cons w ws ih =>
    intro b hall
    have h1 : applyWrites (setFmt b w.1 w.2.1 w.2.2) ws i = setFmt b w.1 w.2.1 w.2.2 i :=
      ih _ (fun w' hw' => hall w' (List.mem_cons_of_mem _ hw'))
    calc applyWrites b (w :: ws) i
        = applyWrites (setFmt b w.1 w.2.1 w.2.2) ws i := rfl
      _ = setFmt b w.1 w.2.1 w.2.2 i := h1
      _ = b i := by
          unfold setFmt
          rw [if_neg (hall w (List.mem_cons_self _ _))]

/-- If every write in a list carries the same format and some write covers
the offset, that format is what ends up there. -/
theorem applyWrites_cover_const {f₀ : Fmt} {i : Nat} :
    ∀ (ws : List (Nat × Nat × Fmt)) (b : Buf),
      (∀ w ∈ ws, w.2.2 = f₀) →
      (∃ w ∈ ws, w.1 ≤ i ∧ i < w.1 + w.2.1) →
      applyWrites b ws i = some f₀ := by
  intro ws
  induction ws with
  | nil => intro b _ hex; simp at hex
  | cons w ws ih =>
    intro b hall hex
    by_cases hc : ∃ w' ∈ ws, w'.1 ≤ i ∧ i < w'.1 + w'.2.1
    · exact ih _ (fun w' hw' => hall w' (List.mem_cons_of_mem _ hw')) hc
    · obtain ⟨w', hw', hcov⟩ := hex
      rcases List.mem_cons.mp hw' with rfl | hmem
      · have h1 : applyWrites (setFmt b w'.1 w'.2.1 w'.2.2) ws i =
            setFmt b w'.1 w'.2.1 w'.2.2 i :=
          applyWrites_nocover ws _ (fun u hu hcov' => hc ⟨u, hu, hcov'⟩)
        calc applyWrites b (w' :: ws) i
            = applyWrites (setFmt b w'.1 w'.2.1 w'.2.2) ws i := rfl
          _ = setFmt b w'.1 w'.2.1 w'.2.2 i := h1
          _ = some f₀ := by
              unfold setFmt
              rw [if_pos hcov, hall w' (List.mem_cons_self _ _)]
      · exact absurd ⟨w', hmem, hcov⟩ hc

/-! ### Gutter loop versus decimal digit count -/

theorem gutterLoopF_digits :
    ∀ (f c d : Nat), 1 ≤ c → c ≤ f →
      gutterLoopF f c d + 1 = d + (Nat.digits 10 c).length := by
  intro f
  induction f with
  | zero => intro c d h1 h2; omega
  | succ f ih =>
    intro c d h1 h2
    unfold gutterLoopF
    by_cases h10 : 10 ≤ c
    · rw [if_pos h10]
      rw [ih (c / 10) (d + 1) (by omega) (by omega)]
      rw [Nat.digits_def' (by norm_num : (1:Nat) < 10) (by omega : 0 < c)]
      simp only [List.length_cons]
      omega
    · rw [if_neg h10]
      have hlen : (Nat.digits 10 c).length = 1 := by
        rw [Nat.digits_def' (by norm_num : (1:Nat) < 10) (by omega : 0 < c)]
        have h0 : c / 10 = 0 := by omega
        rw [h0]
        simp
      rw [hlen]

/-! ### Font-step invariant -/

theorem fontSteps_bounds :
    ∀ (steps : List Bool) (st : FontState),
      5 ≤ st.editorSize → st.editorSize ≤ 73 →
      5 ≤ (applyFontSteps steps st).editorSize ∧
        (applyFontSteps steps st).editorSize ≤ 73 := by
  intro steps
  induction steps with
  | nil => intro st h1 h2; exact ⟨h1, h2⟩
  | cons b steps ih =>
    intro st h1 h2
    have hb : 5 ≤ (if b then increaseFontSize st else decreaseFontSize st).editorSize ∧
        (if b then increaseFontSize st else decreaseFontSize st).editorSize ≤ 73 := by
      cases b
      · simp only [Bool.false_eq_true, if_neg, decreaseFontSize]
        by_cases h : st.editorSize > 6
        · rw [if_pos h]; constructor <;> simp <;> omega
        · rw [if_neg h]; exact ⟨h1, h2⟩
      · simp only [if_pos, increaseFontSize]
        by_cases h : st.editorSize < 72
        · rw [if_pos h]; constructor <;> simp <;> omega
        · rw [if_neg h]; exact ⟨h1, h2⟩
    exact ih _ hb.1 hb.2

/-! ### Run orchestration -/

/-- A run trigger either actually starts the process (run action disabled,
process active) or leaves the run/process flags exactly as they were. -/
theorem runCode_cases (st : EdState) (resp : Option String) :
    ((runCode st resp).1.runEnabled = false ∧ (runCode st resp).1.processActive = true) ∨
    ((runCode st resp).1.runEnabled = st.runEnabled ∧
      (runCode st resp).1.processActive = st.processActive) := by
  cases hp : st.path with
  | none =>
    cases resp with
    | none =>
      right
      have h : runCode st none = (st, [Prompt.saveFileDialog], false) := by
        unfold runCode saveFileEd saveFileAs
        rw [hp]
        rfl
      rw [h]
      exact ⟨rfl, rfl⟩
    | some p =>
      left
      have h : runCode st (some p) =
          ({ writeFileEd st p with runEnabled := false, processActive := true },
            [Prompt.saveFileDialog], true) := by
        unfold runCode saveFileEd saveFileAs writeFileEd
        rw [hp]
        rfl
      rw [h]
      exact ⟨rfl, rfl⟩
  | some p =>
    left
    have h : runCode st resp =
        ({ writeFileEd st p with runEnabled := false, processActive := true }, [], true) := by
      unfold runCode saveFileEd writeFileEd
      rw [hp]
      rfl
    rw [h]
    exact ⟨rfl, rfl⟩

/-! ### UTF-8 round trip -/

theorem utf8DecodeF_nil (f : Nat) : utf8DecodeF f [] = some [] := by
  cases f <;> rfl

theorem utf8DecodeF_cons (f b0 : Nat) (rest : List Nat) :
    utf8DecodeF (f + 1) (b0 :: rest) =
      if b0 < 0x80 then (utf8DecodeF f rest).map (fun cs => Char.ofNat b0 :: cs)
      else if b0 < 0xC0 then none
      else if b0 < 0xE0 then utf8Cont1 (utf8DecodeF f) b0 rest
      else if b0 < 0xF0 then utf8Cont2 (utf8DecodeF f) b0 rest
      else if b0 < 0xF5 then utf8Cont3 (utf8DecodeF f) b0 rest
      else none := rfl

/-- Decoding the UTF-8 bytes of one character followed by anything else
peels off exactly that character (and one unit of fuel). -/
theorem utf8DecodeF_encodeCP (c : Char) (rest : List Nat) (f : Nat) :
    utf8DecodeF (f + 1) (utf8EncodeCP c.toNat ++ rest) =
      (utf8DecodeF f rest).map (fun cs => c :: cs) := by
  have hv : c.toNat < 0xD800 ∨ (0xDFFF < c.toNat ∧ c.toNat < 0x110000) := c.valid
  by_cases h1 : c.toNat < 0x80
  · have henc : utf8EncodeCP c.toNat = [c.toNat] := by
      unfold utf8EncodeCP; rw [if_pos h1]
    rw [henc]
    show utf8DecodeF (f + 1) (c.toNat :: rest) = _
    rw [utf8DecodeF_cons, if_pos h1, Char.ofNat_toNat]
  · by_cases h2 : c.toNat < 0x800
    · have henc : utf8EncodeCP c.toNat =
          [0xC0 + c.toNat / 0x40, 0x80 + c.toNat % 0x40] := by
        unfold utf8EncodeCP; rw [if_neg h1, if_pos h2]
      rw [henc]
      show utf8DecodeF (f + 1)
          ((0xC0 + c.toNat / 0x40) :: (0x80 + c.toNat % 0x40) :: rest) = _
      rw [utf8DecodeF_cons, if_neg (by omega), if_neg (by omega), if_pos (by omega)]
      unfold utf8Cont1
      dsimp only
      rw [if_pos (by omega : 0x80 ≤ 0x80 + c.toNat % 0x40 ∧ 0x80 + c.toNat % 0x40 < 0xC0)]
      rw [if_pos (by omega :
        0x80 ≤ (0xC0 + c.toNat / 0x40 - 0xC0) * 0x40 + (0x80 + c.toNat % 0x40 - 0x80))]
      have hn : (0xC0 + c.toNat / 0x40 - 0xC0) * 0x40 + (0x80 + c.toNat % 0x40 - 0x80) =
          c.toNat := by omega
      rw [hn, Char.ofNat_toNat]
    · by_cases h3 : c.toNat < 0x10000
      · have henc : utf8EncodeCP c.toNat =
            [0xE0 + c.toNat / 0x1000, 0x80 + (c.toNat / 0x40) % 0x40,
             0x80 + c.toNat % 0x40] := by
          unfold utf8EncodeCP; rw [if_neg h1, if_neg h2, if_pos h3]
        rw [henc]
        show utf8DecodeF (f + 1) ((0xE0 + c.toNat / 0x1000) ::
          (0x80 + (c.toNat / 0x40) % 0x40) :: (0x80 + c.toNat % 0x40) :: rest) = _
        rw [utf8DecodeF_cons, if_neg (by omega), if_neg (by omega), if_neg (by omega),
            if_pos (by omega)]
        unfold utf8Cont2
        dsimp only
        rw [if_pos (by exact ⟨⟨by omega, by omega⟩, by omega, by omega⟩)]
        rw [if_pos (by
          constructor
          · omega
          · rcases hv with hv | hv
            · left; omega
            · right; omega)]
        have hn : (0xE0 + c.toNat / 0x1000 - 0xE0) * 0x1000 +
            (0x80 + (c.toNat / 0x40) % 0x40 - 0x80) * 0x40 +
            (0x80 + c.toNat % 0x40 - 0x80) = c.toNat := by omega
        rw [hn, Char.ofNat_toNat]
      · have h4 : c.toNat < 0x110000 := by rcases hv with hv | hv <;> omega
        have henc : utf8EncodeCP c.toNat =
            [0xF0 + c.toNat / 0x40000, 0x80 + (c.toNat / 0x1000) % 0x40,
             0x80 + (c.toNat / 0x40) % 0x40, 0x80 + c.toNat % 0x40] := by
          unfold utf8EncodeCP; rw [if_neg h1, if_neg h2, if_neg h3]
        rw [henc]
        show utf8DecodeF (f + 1) ((0xF0 + c.toNat / 0x40000) ::
          (0x80 + (c.toNat / 0x1000) % 0x40) :: (0x80 + (c.toNat / 0x40) % 0x40) ::
          (0x80 + c.toNat % 0x40) :: rest) = _
        rw [utf8DecodeF_cons, if_neg (by omega), if_neg (by omega), if_neg (by omega),
            if_neg (by omega), if_pos (by omega)]
        unfold utf8Cont3
        dsimp only
        rw [if_pos (by exact ⟨⟨by omega, by omega⟩, ⟨by omega, by omega⟩, by omega, by omega⟩)]
        rw [if_pos (by constructor <;> omega)]
        have hn : (0xF0 + c.toNat / 0x40000 - 0xF0) * 0x40000 +
            (0x80 + (c.toNat / 0x1000) % 0x40 - 0x80) * 0x1000 +
            (0x80 + (c.toNat / 0x40) % 0x40 - 0x80) * 0x40 +
            (0x80 + c.toNat % 0x40 - 0x80) = c.toNat := by omega
        rw [hn, Char.ofNat_toNat]

theorem utf8Decode_utf8Encode (text : List Char) :
    utf8Decode (utf8Encode text) = some text := by
  suffices h : ∀ f, (utf8Encode text).length ≤ f → utf8DecodeF f (utf8Encode text) = some text by
    exact h _ (Nat.le_refl _)
  induction text with
  | nil =>
    intro f _
    have henc : utf8Encode ([] : List Char) = [] := by simp [utf8Encode]
    rw [henc, utf8DecodeF_nil]
  | cons c cs ih =>
    intro f hf
    have henc : utf8Encode (c :: cs) = utf8EncodeCP c.toNat ++ utf8Encode cs := by
      simp [utf8Encode]
    have hk : 1 ≤ (utf8EncodeCP c.toNat).length := by
      unfold utf8EncodeCP
      split_ifs <;> simp
    rw [henc] at hf ⊢
    rw [List.length_append] at hf
    obtain ⟨f1, rfl⟩ : ∃ f1, f = f1 + 1 := ⟨f - 1, by omega⟩
    rw [utf8DecodeF_encodeCP]
    rw [ih f1 (by omega)]
    rfl

/-! ## Claim theorems -/

/-- C1: a line entered in carry-state `InSingle` (`1`) or `InDouble` (`2`) is
searched for the matching closing delimiter from the start of the line.  If
it is absent, the entire line is one String span and the outgoing state
equals the incoming one; if it is found at offset `e`, offsets `0 .. e+3`
(exclusive end) form a String span and scanning for newly opening multi-line
strings continues just after the closing delimiter, starting from the clean
state.  Scenario B: line 1 `s = '''abc` entered clean leaves state
`InSingle`; line 2 `def''' ` entered in `InSingle` is styled as String up to
and including the closing `'''` (offsets 0 through 5, not 6) and leaves
state clean. -/
theorem multiline_carry_spec :
    (∀ (text : List Char) (prev : Int), prev = 1 ∨ prev = 2 →
      (findFrom (if prev = 1 then tq else dq) text 0 = none →
        multilineScan prev text = ([(0, text.length)], prev)) ∧
      (∀ e, findFrom (if prev = 1 then tq else dq) text 0 = some e →
        multilineScan prev text =
          ((0, e + 3) :: (scanFrom text (e + 3)).1, (scanFrom text (e + 3)).2))) ∧
    (multilineScan 0 "s = '''abc".data = ([(4, 6)], 1) ∧
     multilineScan 1 "def''' ".data = ([(0, 6)], 0) ∧
     (highlightBlock 1 "def''' ".data).1 0 = some Fmt.stringFmt ∧
     (highlightBlock 1 "def''' ".data).1 5 = some Fmt.stringFmt ∧
     (highlightBlock 1 "def''' ".data).1 6 = none ∧
     (highlightBlock 1 "def''' ".data).2 = 0) := by
  constructor
  · intro text prev hp
    rcases hp with rfl | rfl
    · constructor
      · intro hnone
        have h0 : findFrom tq text 0 = none := hnone
        have hdef : multilineScan 1 text =
            (match findFrom tq text 0 with
             | none => ([(0, text.length)], (1 : Int))
             | some e =>
               ((0, e + 3) :: (scanFrom text (e + 3)).1, (scanFrom text (e + 3)).2)) := rfl
        rw [hdef, h0]
      · intro e he
        have h0 : findFrom tq text 0 = some e := he
        have hdef : multilineScan 1 text =
            (match findFrom tq text 0 with
             | none => ([(0, text.length)], (1 : Int))
             | some e =>
               ((0, e + 3) :: (scanFrom text (e + 3)).1, (scanFrom text (e + 3)).2)) := rfl
        rw [hdef, h0]
    · constructor
      · intro hnone
        have h0 : findFrom dq text 0 = none := hnone
        have hdef : multilineScan 2 text =
            (match findFrom dq text 0 with
             | none => ([(0, text.length)], (2 : Int))
             | some e =>
               ((0, e + 3) :: (scanFrom text (e + 3)).1, (scanFrom text (e + 3)).2)) := rfl
        rw [hdef, h0]
      · intro e he
        have h0 : findFrom dq text 0 = some e := he
        have hdef : multilineScan 2 text =
            (match findFrom dq text 0 with
             | none => ([(0, text.length)], (2 : Int))
             | some e =>
               ((0, e + 3) :: (scanFrom text (e + 3)).1, (scanFrom text (e + 3)).2)) := rfl
        rw [hdef, h0]
  · exact ⟨by decide, by decide, by decide, by decide, by decide, by decide⟩

/-- C1 witness: the two general parts applied to concrete lines in state
`InSingle`. -/
theorem multiline_carry_spec_witness :
    multilineScan 1 "no closer".data = ([(0, 9)], 1) ∧
    multilineScan 1 "def''' ".data =
      ((0, 6) :: (scanFrom "def''' ".data 6).1, (scanFrom "def''' ".data 6).2) :=
  ⟨(multiline_carry_spec.1 "no closer".data 1 (Or.inl rfl)).1 (by decide),
   (multiline_carry_spec.1 "def''' ".data 1 (Or.inl rfl)).2 3 (by decide)⟩

/-- C2: scanning in the clean state repeatedly takes the earliest `'''` or
`"""` occurrence (whichever starts first).  If the opener has a closer
strictly after its three characters, the opener-through-closer span is
styled, the state stays clean and the scan repeats just after the closer; if
not, the opener-to-end-of-line span is styled and the outgoing state becomes
`InSingle` (`1`) or `InDouble` (`2`) matching the opener.  With neither
delimiter present the scan stops; hence a line with no triple-quote
delimiter entered clean leaves state clean. -/
theorem clean_scan_spec :
    ∀ (text : List Char) (i : Nat),
      (findFrom tq text i = none → findFrom dq text i = none →
        scanFrom text i = ([], 0)) ∧
      (∀ s, findFrom tq text i = some s →
        (findFrom dq text i = none ∨ ∃ d, findFrom dq text i = some d ∧ s < d) →
        (findFrom tq text (s + 3) = none →
          scanFrom text i = ([(s, text.length - s)], 1)) ∧
        (∀ e, findFrom tq text (s + 3) = some e →
          scanFrom text i =
            ((s, e - s + 3) :: (scanFrom text (e + 3)).1, (scanFrom text (e + 3)).2))) ∧
      (∀ d, findFrom dq text i = some d →
        (findFrom tq text i = none ∨ ∃ s, findFrom tq text i = some s ∧ d < s) →
        (findFrom dq text (d + 3) = none →
          scanFrom text i = ([(d, text.length - d)], 2)) ∧
        (∀ e, findFrom dq text (d + 3) = some e →
          scanFrom text i =
            ((d, e - d + 3) :: (scanFrom text (e + 3)).1, (scanFrom text (e + 3)).2))) ∧
      (∀ prev : Int, prev ≤ 0 → findFrom tq text 0 = none → findFrom dq text 0 = none →
        multilineScan prev text = ([], 0)) := by
  intro text i
  refine ⟨fun h1 h2 => scanFrom_nodelim h1 h2, fun s hs hd => ?_, fun d hd hs => ?_,
    fun prev hprev h1 h2 => ?_⟩
  · have hstep : scanFrom text i =
        (match findFrom tq text (s + 3) with
         | none => ([(s, text.length - s)], (1 : Int))
         | some e =>
           ((s, e - s + 3) :: (scanFrom text (e + 3)).1, (scanFrom text (e + 3)).2)) :=
      scanFrom_step (pickOpener_left hs hd)
    constructor
    · intro hcl
      rw [hstep, hcl]
    · intro e he
      rw [hstep, he]
  · have hstep : scanFrom text i =
        (match findFrom dq text (d + 3) with
         | none => ([(d, text.length - d)], (2 : Int))
         | some e =>
           ((d, e - d + 3) :: (scanFrom text (e + 3)).1, (scanFrom text (e + 3)).2)) :=
      scanFrom_step (pickOpener_right hd hs)
    constructor
    · intro hcl
      rw [hstep, hcl]
    · intro e he
      rw [hstep, he]
  · have hclean : multilineScan prev text = scanFrom text 0 := by
      unfold multilineScan
      rw [if_neg (by omega : ¬prev > 0)]
    rw [hclean]
    exact scanFrom_nodelim h1 h2

/-- C2 witness: the pieces applied to concrete lines — a delimiter-free
line, a line that opens and closes `'''` once and continues, an unclosed
`"""` opener, and the clean pass-through. -/
theorem clean_scan_spec_witness :
    scanFrom "x = 1".data 0 = ([], 0) ∧
    scanFrom "a'''b'''c".data 0 =
      ((1, 7) :: (scanFrom "a'''b'''c".data 8).1, (scanFrom "a'''b'''c".data 8).2) ∧
    scanFrom "a\"\"\"b".data 0 = ([(1, 4)], 2) ∧
    multilineScan 0 "x = 1".data = ([], 0) :=
  ⟨(clean_scan_spec "x = 1".data 0).1 (by decide) (by decide),
   ((clean_scan_spec "a'''b'''c".data 0).2.1 1 (by decide) (Or.inl (by decide))).2 5 (by decide),
   ((clean_scan_spec "a\"\"\"b".data 0).2.2.1 1 (by decide) (Or.inl (by decide))).1 (by decide),
   (clean_scan_spec "x = 1".data 0).2.2.2 0 (by decide) (by decide) (by decide)⟩

/-- C3 counterexample: triggering Run on a modified never-saved document does
not prompt the three-way Save / Discard / Cancel decision the claim
describes; it prompts the save-file-path dialog (`save_file_as`), because
`run_code` calls `save_file`, not `maybe_save`.  Cancelling still aborts:
nothing is written, the process is not started, the state is unchanged. -/
theorem run_prompt_counterexample :
    (runCode unsavedDoc none).2.1 = [Prompt.saveFileDialog] ∧
    Prompt.threeWaySave ∉ (runCode unsavedDoc none).2.1 ∧
    (runCode unsavedDoc none).2.2 = false ∧
    (runCode unsavedDoc none).1 = unsavedDoc := by
  exact ⟨by decide, by decide, by decide, by decide⟩

/-- C3 (amended): triggering Run on a never-saved document prompts the
save-file-path dialog; cancelling that dialog aborts the run without side
effects — no prompt other than the save dialog is shown, no file is written,
the document state (text, path, modified flag, files on disk) is unchanged,
and the external process is not started. -/
theorem run_unsaved_cancel_aborts :
    ∀ st : EdState, st.path = none →
      (runCode st none).2.1 = [Prompt.saveFileDialog] ∧
      Prompt.threeWaySave ∉ (runCode st none).2.1 ∧
      (runCode st none).2.2 = false ∧
      (runCode st none).1 = st := by
  intro st hp
  have h : runCode st none = (st, [Prompt.saveFileDialog], false) := by
    unfold runCode saveFileEd saveFileAs
    rw [hp]
    rfl
  rw [h]
  exact ⟨rfl, (by decide : Prompt.threeWaySave ∉ [Prompt.saveFileDialog]), rfl, rfl⟩

/-- C3 witness: the amended theorem applied to the concrete unsaved
document. -/
theorem run_unsaved_cancel_aborts_witness :
    (runCode unsavedDoc none).2.2 = false ∧ (runCode unsavedDoc none).1 = unsavedDoc :=
  ⟨(run_unsaved_cancel_aborts unsavedDoc rfl).2.2.1,
   (run_unsaved_cancel_aborts unsavedDoc rfl).2.2.2⟩

/-- C4 counterexample: with digit-glyph width 7, growing from 9 to 10 total
lines widens the reserved margin by exactly 7 (one digit's width), not by
`7 + 10` (one digit's width plus the fixed padding, which is 10 in
`lineNumberAreaWidth`), refuting the claim's "plus fixed padding". -/
theorem gutter_growth_counterexample :
    lineNumberAreaWidth 10 7 = lineNumberAreaWidth 9 7 + 7 ∧
    ¬lineNumberAreaWidth 10 7 = lineNumberAreaWidth 9 7 + (7 + 10) := by
  exact ⟨by decide, by decide⟩

/-- C4 (amended): for every total line count `n ≥ 1` the reserved margin
width equals the fixed padding 10 plus one digit-glyph width times the
number of decimal digits of `n`; consequently growing from 9 to 10 total
lines increases the margin by exactly one digit's width (the padding is
unchanged). -/
theorem gutter_width_formula :
    (∀ (n w : Nat), 1 ≤ n →
      lineNumberAreaWidth n w = 10 + w * (Nat.digits 10 n).length) ∧
    (∀ w : Nat, lineNumberAreaWidth 10 w = lineNumberAreaWidth 9 w + w) := by
  constructor
  · intro n w hn
    show 10 + w * gutterLoopF (max 1 n) (max 1 n) 1 = 10 + w * (Nat.digits 10 n).length
    rw [Nat.max_eq_right hn]
    have h := gutterLoopF_digits n n 1 hn (Nat.le_refl n)
    have h2 : gutterLoopF n n 1 = (Nat.digits 10 n).length := by omega
    rw [h2]
  · intro w
    show 10 + w * 2 = 10 + w * 1 + w
    omega

/-- C4 witness: the width formula evaluated at 9 and 10 lines with digit
width 7. -/
theorem gutter_width_formula_witness :
    lineNumberAreaWidth 9 7 = 10 + 7 * (Nat.digits 10 9).length ∧
    lineNumberAreaWidth 10 7 = 10 + 7 * (Nat.digits 10 10).length :=
  ⟨gutter_width_formula.1 9 7 (by decide), gutter_width_formula.1 10 7 (by decide)⟩

/-- C5: single-line rules are applied in registration order over a
per-character format buffer, and a later write overwrites an earlier one at
every offset it covers (ordered overlay, last write wins); the multi-line
string spans are applied after all single-line rules and force the String
format wherever they cover.  On `def foo(x):` both the
identifier-before-paren rule and the def-look-behind rule match `foo`
(offsets 4 through 6); the def-look-behind rule is the last registered rule
and the final format at those offsets is its (shared) function format. -/
theorem rule_overlay_last_wins :
    (∀ (b : Buf) (ws : List (Nat × Nat × Fmt)) (s len : Nat) (f : Fmt) (i : Nat),
      s ≤ i → i < s + len → applyWrites b (ws ++ [(s, len, f)]) i = some f) ∧
    (∀ (prev : Int) (text : List Char) (i : Nat),
      (∃ sp ∈ (multilineScan prev text).1, sp.1 ≤ i ∧ i < sp.1 + sp.2) →
      (highlightBlock prev text).1 i = some Fmt.stringFmt) ∧
    identBeforeParenMatch "def foo(x):".data = [(4, 3)] ∧
    defNameMatch "def foo(x):".data = [(4, 3)] ∧
    highlighting_rules.getLast? = some (defNameMatch, Fmt.functionFmt) ∧
    (highlightBlock 0 "def foo(x):".data).1 4 = some Fmt.functionFmt ∧
    (highlightBlock 0 "def foo(x):".data).1 5 = some Fmt.functionFmt ∧
    (highlightBlock 0 "def foo(x):".data).1 6 = some Fmt.functionFmt := by
  refine ⟨?_, ?_, by decide, by decide, rfl, by decide, by decide, by decide⟩
  · intro b ws s len f i h1 h2
    rw [applyWrites_append]
    show setFmt (applyWrites b ws) s len f i = some f
    unfold setFmt
    rw [if_pos ⟨h1, h2⟩]
  · intro prev text i hcov
    show applyWrites (applyWrites emptyBuf (ruleWrites text))
        ((multilineScan prev text).1.map fun sp => (sp.1, sp.2, Fmt.stringFmt)) i =
      some Fmt.stringFmt
    apply applyWrites_cover_const
    · intro w hw
      obtain ⟨sp, _, hweq⟩ := List.mem_map.mp hw
      rw [← hweq]
    · obtain ⟨sp, hsp, hc1, hc2⟩ := hcov
      exact ⟨(sp.1, sp.2, Fmt.stringFmt),
        List.mem_map_of_mem (fun sp => (sp.1, sp.2, Fmt.stringFmt)) hsp, hc1, hc2⟩

/-- C5 witness: the overlay parts applied concretely — a last write claiming
offset 0, and a multi-line span overriding offset 0 of a line scanned in
state `InSingle`. -/
theorem rule_overlay_last_wins_witness :
    applyWrites emptyBuf ([] ++ [(0, 1, Fmt.keywordFmt)]) 0 = some Fmt.keywordFmt ∧
    (highlightBlock 1 "x".data).1 0 = some Fmt.stringFmt :=
  ⟨rule_overlay_last_wins.1 emptyBuf [] 0 1 Fmt.keywordFmt 0 (by decide) (by decide),
   rule_overlay_last_wins.2.1 1 "x".data 0 (by decide)⟩

/-- C6: in every state reachable by run / process-finished steps from the
initial editor state, an active external process implies the run action is
disabled, so a second run cannot be triggered (a `QAction` only fires while
enabled) until `process_finished` re-enables it. -/
theorem single_outstanding_run :
    ∀ st : EdState, EdReachable st → st.processActive = true → st.runEnabled = false := by
  intro st h
  induction h with
  | init =>
    intro hpa
    exact Bool.noConfusion hpa
  | @step s t hr hstep ih =>
    cases hstep with
    | runTrigger resp hen =>
      intro hpa
      rcases runCode_cases s resp with ⟨h1, _⟩ | ⟨h1, h2⟩
      · exact h1
      · rw [h2] at hpa
        have hfalse := ih hpa
        rw [hen] at hfalse
        exact Bool.noConfusion hfalse
    | procFinished hact =>
      intro hpa
      exact Bool.noConfusion hpa

/-- C6 witness: after actually starting a run from the initial state, the
reachable state has the run action disabled. -/
theorem single_outstanding_run_witness :
    (runCode initEd (some "a.py")).1.runEnabled = false :=
  single_outstanding_run _
    (EdReachable.step EdReachable.init (EdStep.runTrigger initEd (some "a.py") rfl))
    (by decide)

/-- C7: the per-line highlighting computation is total — the forward-scan
loop strictly advances its position, so any fuel at least the remaining
line length computes the loop's unique result, and `highlightBlock` produces
a (possibly empty) span buffer and an outgoing state for every input, with
no error outcome in its type. -/
theorem scan_loop_total :
    (∀ (text : List Char) (i f : Nat), text.length + 1 ≤ f + i →
      scanFromF f text i = scanFrom text i) ∧
    (∀ (prev : Int) (text : List Char), ∃ b outState,
      highlightBlock prev text = (b, outState)) := by
  constructor
  · intro text i f h
    exact scanFromF_congr text f (text.length + 1) i h (by omega)
  · intro prev text
    exact ⟨(highlightBlock prev text).1, (highlightBlock prev text).2, rfl⟩

/-- C7 witness: extra fuel does not change the scan of a pathological
unterminated line. -/
theorem scan_loop_total_witness :
    scanFromF 9 "'''ab".data 0 = scanFrom "'''ab".data 0 :=
  scan_loop_total.1 "'''ab".data 0 9 (by decide)

/-- C8: saving a document writes the UTF-8 bytes of its text to the file,
and opening that file reads exactly those bytes back and decodes them to the
original text — a byte-identical round trip through the disk. -/
theorem save_open_round_trip :
    ∀ (fs : String → Option (List Nat)) (path : String) (text : List Char),
      saveToDisk fs path text path = some (utf8Encode text) ∧
      openFromDisk (saveToDisk fs path text) path = some text := by
  intro fs path text
  constructor
  · show (if path = path then some (utf8Encode text) else fs path) = some (utf8Encode text)
    rw [if_pos rfl]
  · unfold openFromDisk saveToDisk
    rw [if_pos rfl]
    exact utf8Decode_utf8Encode text

/-- C9: highlighting a line is deterministic — the result is a function of
the line text and the incoming carry-state alone, so recomputing with equal
inputs yields the same span buffer and outgoing state. -/
theorem highlight_deterministic :
    ∀ (prev1 prev2 : Int) (t1 t2 : List Char),
      prev1 = prev2 → t1 = t2 → highlightBlock prev1 t1 = highlightBlock prev2 t2 := by
  intro _ _ _ _ h1 h2
  rw [h1, h2]

/-- C9 witness: recomputation of an unchanged line in an unchanged state. -/
theorem highlight_deterministic_witness :
    highlightBlock 0 "x = 1".data = highlightBlock 0 "x = 1".data :=
  highlight_deterministic 0 0 "x = 1".data "x = 1".data rfl rfl

/-- C10: font stepping is clamped asymmetrically at the editor's size only:
increase adds 2 to both fonts exactly when the editor size is below 72 and
otherwise changes neither; decrease subtracts 2 from both exactly when the
editor size is above 6 and otherwise changes neither; every editor size
reachable from the initial size 11 lies between 5 and 73. -/
theorem font_step_clamp :
    (∀ st : FontState, st.editorSize < 72 →
      increaseFontSize st =
        { editorSize := st.editorSize + 2, outputSize := st.outputSize + 2 }) ∧
    (∀ st : FontState, 72 ≤ st.editorSize → increaseFontSize st = st) ∧
    (∀ st : FontState, 6 < st.editorSize →
      decreaseFontSize st =
        { editorSize := st.editorSize - 2, outputSize := st.outputSize - 2 }) ∧
    (∀ st : FontState, st.editorSize ≤ 6 → decreaseFontSize st = st) ∧
    (∀ steps : List Bool,
      5 ≤ (applyFontSteps steps initFonts).editorSize ∧
      (applyFontSteps steps initFonts).editorSize ≤ 73) := by
  refine ⟨?_, ?_, ?_, ?_, ?_⟩
  · intro st h
    unfold increaseFontSize
    rw [if_pos h]
  · intro st h
    unfold increaseFontSize
    rw [if_neg (by omega)]
  · intro st h
    unfold decreaseFontSize
    rw [if_pos h]
  · intro st h
    unfold decreaseFontSize
    rw [if_neg (by omega)]
  · intro steps
    exact fontSteps_bounds steps initFonts (by decide) (by decide)

/-- C10 witness: one increase from the initial sizes, and a decrease at the
lower clamp. -/
theorem font_step_clamp_witness :
    increaseFontSize { editorSize := 11, outputSize := 10 } =
      { editorSize := 13, outputSize := 12 } ∧
    decreaseFontSize { editorSize := 5, outputSize := 4 } =
      { editorSize := 5, outputSize := 4 } :=
  ⟨font_step_clamp.1 { editorSize := 11, outputSize := 10 } (by decide),
   font_step_clamp.2.2.2.1 { editorSize := 5, outputSize := 4 } (by decide)⟩

end Editor
